import Mathlib

/-!
Verification of the weather forecast-cycle cache, backfill scheduler and
gas-flow regression engine.

Shallow embedding conventions:
* Calendar dates are represented by their day number (days since 1970-01-01,
  which was a Thursday).  ISO date strings compare lexicographically exactly
  as their day numbers compare, so TEXT date columns are embedded as, and
  ordered by, these day numbers.  A converter from civil (year, month, day)
  triples is provided so that concrete inputs can be written as calendar dates.
* Instants (Python datetime values) are represented by seconds since the epoch.
  Python floor division and modulo on these agree with Lean Int division and
  modulo because all divisors involved are positive.
* Real-valued data (degree days, storage levels) are embedded as rationals.
* SQLite tables are embedded as lists of row structures; INSERT OR REPLACE on
  a UNIQUE key deletes the conflicting row and appends the fresh one, and
  every query re-sorts, so physical row order never matters.
-/

unseal Rat.add Rat.mul Rat.sub Rat.inv

/-- Day number of a civil (year, month, day) date, with day 0 = 1970-01-01
(standard days-from-civil computation); used only to write concrete dates. -/
def civilToDay (y : Int) (m d : Nat) : Int :=
  let y' : Int := if m ≤ 2 then y - 1 else y
  let era : Int := (if 0 ≤ y' then y' else y' - 399) / 400
  let yoe : Int := y' - era * 400
  let mp : Int := if 2 < m then (m : Int) - 3 else (m : Int) + 9
  let doy : Int := (153 * mp + 2) / 5 + (d : Int) - 1
  let doe : Int := yoe * 365 + yoe / 4 - yoe / 100 + doy
  era * 146097 + doe - 719468

/-- Weekday of a day number, Monday = 0 .. Sunday = 6 (Python date.weekday);
day 0 = 1970-01-01 was a Thursday, hence weekday 3. -/
def pyWeekday (d : Int) : Int := (d + 3) % 7

/-- Floor of a rational (numerator divided by denominator with Int division,
which floors since the denominator is positive). -/
def ratFloor (q : ℚ) : Int := q.num / q.den

/-- Python round(x, 1) idealized over the rationals: round to the nearest
tenth, halves up (the float banker tie rule differs only at exact ties,
which does not affect any claim here). -/
def round1 (q : ℚ) : ℚ := (ratFloor (10 * q + 1 / 2) : ℚ) / 10

/-- Python round(x, 2): round to the nearest hundredth. -/
def round2 (q : ℚ) : ℚ := (ratFloor (100 * q + 1 / 2) : ℚ) / 100

/-! ## Observation Store, forecast side (src/degree_days/cache.py) -/

/-- One row of the forecasts table: UNIQUE(model, run_date, run_hour,
valid_date), with HDD/CDD values (created_at is immaterial to the contract
and omitted). -/
structure FRow where
  model : String
  run_date : Int
  run_hour : Int
  valid_date : Int
  hdd : ℚ
  cdd : ℚ
deriving DecidableEq, Repr

/-- One entry of a daily degree-day series (a row of the daily_df DataFrame:
valid_date, HDD, CDD). -/
structure DailyRow where
  valid_date : Int
  hdd : ℚ
  cdd : ℚ
deriving DecidableEq, Repr

/-- The forecasts table. -/
abbrev ForecastDB := List FRow

/-- Equality on the UNIQUE key (model, run_date, run_hour, valid_date). -/
def frowKeyEq (a b : FRow) : Bool :=
  a.model == b.model && a.run_date == b.run_date &&
    a.run_hour == b.run_hour && a.valid_date == b.valid_date

/-- SQLite INSERT OR REPLACE against the UNIQUE key: the conflicting row
(if any) is deleted and the new row inserted. -/
def insertOrReplace (db : ForecastDB) (r : FRow) : ForecastDB :=
  db.filter (fun x => !(frowKeyEq x r)) ++ [r]

/-- ForecastCache.save_run: one INSERT OR REPLACE per row of daily_df. -/
def save_run (db : ForecastDB) (model : String) (rd rh : Int)
    (daily : List DailyRow) : ForecastDB :=
  daily.foldl (fun acc row =>
    insertOrReplace acc ⟨model, rd, rh, row.valid_date, row.hdd, row.cdd⟩) db

/-- Membership test for the WHERE clause of get_run. -/
def frowMatches (model : String) (rd rh : Int) (x : FRow) : Bool :=
  x.model == model && x.run_date == rd && x.run_hour == rh

/-- ForecastCache.get_run: SELECT valid_date, hdd, cdd WHERE the identity
matches, ORDER BY valid_date; None when no row matches. -/
def get_run (db : ForecastDB) (model : String) (rd rh : Int) :
    Option (List DailyRow) :=
  let rows := List.insertionSort (fun a b : FRow => a.valid_date ≤ b.valid_date)
    (db.filter (frowMatches model rd rh))
  if rows.isEmpty then none
  else some (rows.map (fun x => ⟨x.valid_date, x.hdd, x.cdd⟩))

/-- Modelled from the spec: ForecastCache.get_all_runs is called by
src/scheduler.py and src/main.py but its implementation is not under src/.
Spec section 4.1 (listCycles): distinct cycle identities (cycleDate,
cycleHour) stored for a model. -/
def get_all_runs (db : ForecastDB) (model : String) : List (Int × Int) :=
  ((db.filter (fun x => x.model == model)).map
    (fun x => (x.run_date, x.run_hour))).dedup

/-- Modelled from the spec: ForecastCache.get_run_by_offset is called by
src/main.py (_generate_changes) but its implementation is not under src/.
Spec section 4.1 (getCycleByOffset): resolve the cycle whose issuance
instant is exactly hoursBack hours before the anchor (calendar-correct day
rollover) and return that cycle's stored series, absent when none. -/
def get_run_by_offset (db : ForecastDB) (model : String)
    (anchorDay anchorHour hoursBack : Int) : Option (List DailyRow) :=
  let t := anchorDay * 24 + anchorHour - hoursBack
  get_run db model (t / 24) (t % 24)

/-! ## Cycle Clock and Backfill pass (src/scheduler.py) -/

/-- Cycle scheduling parameters of a model (MODEL_CONFIG entries). -/
structure ModelCfg where
  cycle_hours : Int
  delay_hours : Int
deriving DecidableEq, Repr

/-- MODEL_CONFIG entry for gfs: cycles every 6 hours, published 4 hours
late. -/
def gfsCfg : ModelCfg := ⟨6, 4⟩

/-- Format an instant (seconds since epoch) as the (date, hour) pair that
strftime and the hour attribute produce. -/
def dayHour (t : Int) : Int × Int := (t / 86400, t % 86400 / 3600)

/-- Scheduler._latest_cycle: subtract the publication delay, then floor the
hour of day to a multiple of the cycle interval (minutes and seconds are
zeroed by the replace call). -/
def latest_cycle (cfg : ModelCfg) (now : Int) : Int × Int :=
  let a := now - cfg.delay_hours * 3600
  let aDay := a / 86400
  let aHour := a % 86400 / 3600
  (aDay, aHour / cfg.cycle_hours * cfg.cycle_hours)

/-- The while loop of Scheduler._recent_cycles: walk backwards from the
latest boundary in steps of the cycle interval while still at or after the
cutoff.  The positivity guard on the step only rules out the nonterminating
degenerate configuration (every real config has a positive interval). -/
def cyclesLoop (step cutoff t : Int) : List (Int × Int) :=
  if h : 0 < step ∧ cutoff ≤ t then
    dayHour t :: cyclesLoop step cutoff (t - step)
  else []
termination_by (t - cutoff + 1).toNat
decreasing_by
  have h1 : (0 : Int) < step := h.1
  have h2 : cutoff ≤ t := h.2
  omega

/-- Scheduler._recent_cycles: all cycle identities within the lookback
window, newest first. -/
def recent_cycles (cfg : ModelCfg) (now : Int) (lookback_hours : Int) :
    List (Int × Int) :=
  let dh := latest_cycle cfg now
  let latest := dh.1 * 86400 + dh.2 * 3600
  let cutoff := now - lookback_hours * 3600
  cyclesLoop (cfg.cycle_hours * 3600) cutoff latest

/-- Outcome of one pass of Scheduler.run_once for one model: the list of
attempted (missing) cycles, the updated cache, and the fetched count. -/
structure PassResult where
  attempted : List (Int × Int)
  db : ForecastDB
  fetched : Nat
deriving Repr

/-- Scheduler.run_once restricted to one model: diff the expected recent
cycles (lookback fixed at 48 hours in the source) against the stored ones,
and fetch-and-store each missing cycle; an exception during the fetch is
embedded as an empty result (neither is cached). -/
def run_once_model (db : ForecastDB) (model : String) (cfg : ModelCfg)
    (now : Int) (fetch : Int → Int → List DailyRow) : PassResult :=
  let existing := get_all_runs db model
  let cycles := recent_cycles cfg now 48
  cycles.foldl (fun acc c =>
    if c ∈ existing then acc
    else
      let daily := fetch c.1 c.2
      if daily.isEmpty then
        { acc with attempted := acc.attempted ++ [c] }
      else
        { attempted := acc.attempted ++ [c]
          db := save_run acc.db model c.1 c.2 daily
          fetched := acc.fetched + 1 })
    ⟨[], db, 0⟩

/-! ## Provider boundary (src/degree_days/extractor.py) -/

/-- Per-forecast-hour fetch outcome inside get_full_forecast: none embeds an
exception from get_forecast, some r a successfully extracted row with its
valid date and spatially averaged HDD/CDD. -/
abbrev HourOutcome := Option DailyRow

/-- The download loop of DegreeDayExtractor.get_full_forecast: collect rows,
counting consecutive failures and aborting at the third one; returns the
collected rows and whether the loop aborted. -/
def fetchLoop : List HourOutcome → Nat → List DailyRow × Bool
  | [], _ => ([], false)
  | none :: rest, cf =>
      if 3 ≤ cf + 1 then ([], true)
      else fetchLoop rest (cf + 1)
  | some r :: rest, _ =>
      let res := fetchLoop rest 0
      (r :: res.1, res.2)

/-- Group hourly rows into daily values: pandas groupby('valid_date') sorts
the distinct dates ascending and averages HDD and CDD, rounded to 2
places. -/
def dailyAgg (rows : List DailyRow) : List DailyRow :=
  let dates := (List.insertionSort (fun a b : Int => a ≤ b)
    (rows.map (fun r => r.valid_date))).dedup
  dates.map (fun d =>
    let grp := rows.filter (fun r => r.valid_date == d)
    ⟨d, round2 ((grp.map (fun r => r.hdd)).sum / grp.length),
       round2 ((grp.map (fun r => r.cdd)).sum / grp.length)⟩)

/-- DegreeDayExtractor.get_full_forecast: empty when the run is unavailable;
otherwise run the download loop over the configured forecast hours, and
discard the whole run (empty result) when nothing was retrieved, or when
the loop aborted on three consecutive failures with fewer than
int(total * 0.75) hours retrieved; otherwise aggregate to daily values. -/
def get_full_forecast (available : Bool) (outcomes : List HourOutcome) :
    List DailyRow :=
  if !available then []
  else
    let total := outcomes.length
    let min_required := total * 3 / 4
    let (rows, aborted) := fetchLoop outcomes 0
    if rows.isEmpty then []
    else if aborted && rows.length < min_required then []
    else dailyAgg rows

/-! ## Observation Store, gas side (src/eia_gas/cache.py) -/

/-- One row of the eia_storage table: period is the PRIMARY KEY,
implied_flow is nullable (created_at omitted as immaterial). -/
structure SRow where
  period : Int
  storage_bcf : ℚ
  implied_flow : Option ℚ
deriving DecidableEq, Repr

/-- One row of the noaa_cpc_degree_days table: week_end_date is the PRIMARY
KEY. -/
structure DRow where
  week_end_date : Int
  hdd : ℚ
  cdd : ℚ
deriving DecidableEq, Repr

/-- Sort storage rows by period ascending (ORDER BY period, and
df.sort_values on period). -/
def sortSByPeriod (l : List SRow) : List SRow :=
  List.insertionSort (fun a b : SRow => a.period ≤ b.period) l

/-- Sort storage rows by period descending (ORDER BY period DESC). -/
def sortSByPeriodDesc (l : List SRow) : List SRow :=
  List.insertionSort (fun a b : SRow => b.period ≤ a.period) l

/-- The prior-week lookup of GasDataCache.save_storage: SELECT storage_bcf
WHERE period < ? ORDER BY period DESC LIMIT 1. -/
def priorStorage (db : List SRow) (p : Int) : Option ℚ :=
  (sortSByPeriodDesc (db.filter (fun x => decide (x.period < p)))).head?.map
    (fun x => x.storage_bcf)

/-- INSERT OR REPLACE into eia_storage against the period PRIMARY KEY. -/
def insertStorage (db : List SRow) (r : SRow) : List SRow :=
  db.filter (fun x => !(x.period == r.period)) ++ [r]

/-- GasDataCache.save_storage: sort the incoming batch by period, then for
each row compute the implied flow against the predecessor currently in the
store and INSERT OR REPLACE the row. -/
def save_storage (db : List SRow) (batch : List (Int × ℚ)) : List SRow :=
  let sorted := List.insertionSort (fun a b : Int × ℚ => a.1 ≤ b.1) batch
  sorted.foldl (fun acc row =>
    let implied := (priorStorage acc row.1).map (fun pv => row.2 - pv)
    insertStorage acc ⟨row.1, row.2, implied⟩) db

/-- The cursor walk of GasDataCache.recompute_implied_flows: over the
period-sorted rows, each row's flow becomes its storage minus the previous
row's storage (None for the first row). -/
def walkFlows : Option ℚ → List SRow → List SRow
  | _, [] => []
  | prev, r :: rest =>
      { r with implied_flow := prev.map (fun pv => r.storage_bcf - pv) } ::
        walkFlows (some r.storage_bcf) rest

/-- GasDataCache.recompute_implied_flows: recompute every implied flow from
the period-sorted storage levels.  The UPDATE statements only rewrite the
implied_flow column keyed by period; since every query re-sorts, the store
is embedded directly as the rewritten period-sorted rows. -/
def recompute_implied_flows (db : List SRow) : List SRow :=
  walkFlows none (sortSByPeriod db)

/-- One row of the regression dataset (the SELECT of get_regression_dataset,
and the input shape of GasFlowRegression): HDD, CDD, implied_flow are
nullable (NaN in pandas). -/
structure RegRow where
  week_end_date : Int
  storage_bcf : ℚ
  implied_flow : Option ℚ
  hdd : Option ℚ
  cdd : Option ℚ
deriving DecidableEq, Repr

/-- Sort regression rows by week_end_date ascending (df.sort_values on
week_end_date). -/
def sortRegByDate (l : List RegRow) : List RegRow :=
  List.insertionSort (fun a b : RegRow => a.week_end_date ≤ b.week_end_date) l

/-- GasDataCache.get_regression_dataset: INNER JOIN eia_storage with
noaa_cpc_degree_days on period = week_end_date + 1 day, keep rows with a
non-null implied flow, ORDER BY period DESC LIMIT lookback_weeks, then
re-sort the resulting frame oldest-to-newest. -/
def get_regression_dataset (stor : List SRow) (dd : List DRow)
    (lookback_weeks : Nat) : List RegRow :=
  let joined := stor.flatMap (fun s =>
    if s.implied_flow.isSome then
      (dd.filter (fun d => d.week_end_date + 1 == s.period)).map (fun d =>
        (⟨s.period, s.storage_bcf, s.implied_flow, some d.hdd, some d.cdd⟩ :
          RegRow))
    else [])
  let recent := (List.insertionSort
    (fun a b : RegRow => b.week_end_date ≤ a.week_end_date) joined).take
    lookback_weeks
  sortRegByDate recent

/-! ## Regression Engine (src/eia_gas/regression.py) -/

/-- GasFlowRegression.WINDOW: three years of weekly observations. -/
def WINDOW : Nat := 156

/-- Result dict of GasFlowRegression._fit_ols. -/
structure FitResult where
  beta_hdd : ℚ
  beta_cdd : ℚ
  intercept : ℚ
  r_squared : ℚ
  n_obs : Nat
  start_date : Int
  end_date : Int
deriving DecidableEq, Repr

/-- Numeric least-squares kernel: stands for np.linalg.lstsq, which computes
the floating-point OLS solution (intercept, beta_hdd, beta_cdd) or raises;
floating-point linear algebra is outside the embedding, so the regression
functions are parametrized by it, none embedding a raised LinAlgError. -/
abbrev OlsKernel := List RegRow → Option (ℚ × ℚ × ℚ)

/-- A trivial total kernel used for concrete evaluations: every fit returns
zero coefficients. -/
def olsZero : OlsKernel := fun _ => some (0, 0, 0)

/-- Dropna test of fit_current and fit_rolling: the row has no missing HDD,
CDD or implied_flow. -/
def regClean (r : RegRow) : Bool :=
  r.hdd.isSome && r.cdd.isSome && r.implied_flow.isSome

/-- Pandas df.tail(n): the last n rows. -/
def pdTail (n : Nat) (l : List RegRow) : List RegRow := l.drop (l.length - n)

/-- GasFlowRegression._fit_ols around the numeric kernel: predictions,
residual and total sums of squares, R-squared (0 on a zero total sum), row
count and first/last period labels. -/
def fit_ols (ols : OlsKernel) (df : List RegRow) : Option FitResult :=
  (ols df).map (fun c =>
    let intercept := c.1
    let beta_hdd := c.2.1
    let beta_cdd := c.2.2
    let ys := df.map (fun r => r.implied_flow.getD 0)
    let preds := df.map (fun r =>
      intercept + beta_hdd * r.hdd.getD 0 + beta_cdd * r.cdd.getD 0)
    let ss_res : ℚ := ((ys.zip preds).map (fun yp => (yp.1 - yp.2) ^ 2)).sum
    let mean : ℚ := ys.sum / (df.length : ℚ)
    let ss_tot : ℚ := (ys.map (fun y => (y - mean) ^ 2)).sum
    let r2 : ℚ := if 0 < ss_tot then 1 - ss_res / ss_tot else 0
    ⟨beta_hdd, beta_cdd, intercept, r2, df.length,
      (df.head?.map (fun r => r.week_end_date)).getD 0,
      (df.getLast?.map (fun r => r.week_end_date)).getD 0⟩)

/-- Failure modes of fit_current: the explicit insufficient-data
ValueError, or a numeric failure inside the least-squares kernel. -/
inductive FitError where
  | insufficientData
  | numeric
deriving DecidableEq, Repr

/-- GasFlowRegression.fit_current: sort by week_end_date, take the most
recent WINDOW rows, drop rows with missing HDD/CDD/implied_flow, raise when
fewer than 10 remain, else fit. -/
def fit_current (ols : OlsKernel) (df : List RegRow) :
    Except FitError FitResult :=
  let windowed := pdTail WINDOW (sortRegByDate df)
  let clean := windowed.filter regClean
  if clean.length < 10 then .error .insufficientData
  else
    match fit_ols ols clean with
    | some r => .ok r
    | none => .error .numeric

/-- GasFlowRegression.fit_rolling: sort, drop unclean rows, then fit the
window df.iloc[i - WINDOW : i] for each i in range(WINDOW, len(df)),
tagging each successful fit with its window's last week_end_date and
skipping failures. -/
def fit_rolling (ols : OlsKernel) (df : List RegRow) :
    List (Int × FitResult) :=
  let c := (sortRegByDate df).filter regClean
  (List.range' WINDOW (c.length - WINDOW)).filterMap (fun i =>
    let window := ((c.drop (i - WINDOW)).take WINDOW)
    (fit_ols ols window).map (fun r =>
      ((window.getLast?.map (fun x => x.week_end_date)).getD 0, r)))

/-- The gas_week_end helper of _aggregate_to_gas_weeks: Mon..Thu map to the
Thursday of the same week, Fri..Sun to the Thursday of the next week. -/
def gas_week_end (d : Int) : Int :=
  let wd := pyWeekday d
  if wd ≤ 3 then d + (3 - wd) else d + (10 - wd)

/-- One weekly bucket produced by _aggregate_to_gas_weeks: summed HDD/CDD
and the count of input days falling in the bucket. -/
structure WeekRow where
  week_end_date : Int
  hdd : ℚ
  cdd : ℚ
  days_in_week : Nat
deriving DecidableEq, Repr

/-- GasFlowRegression._aggregate_to_gas_weeks: assign each day to its gas
week's ending Thursday and group; pandas groupby sorts the distinct keys
ascending and here sums HDD and CDD and counts the rows of each group. -/
def aggregate_to_gas_weeks (daily : List DailyRow) : List WeekRow :=
  let keys := (List.insertionSort (fun a b : Int => a ≤ b)
    (daily.map (fun r => gas_week_end r.valid_date))).dedup
  keys.map (fun w =>
    let grp := daily.filter (fun r => gas_week_end r.valid_date == w)
    ⟨w, (grp.map (fun r => r.hdd)).sum, (grp.map (fun r => r.cdd)).sum,
      grp.length⟩)

/-- One output row of GasFlowRegression.predict_from_forecast. -/
structure PredRow where
  week_end_date : Int
  forecast_HDD : ℚ
  forecast_CDD : ℚ
  implied_flow_bcf : ℚ
  forecast_storage_bcf : ℚ
  days_in_week : Nat
deriving DecidableEq, Repr

/-- The weekly loop of predict_from_forecast: apply the coefficients to each
week in order, accumulate the unrounded flow into the running storage, and
emit rounded values. -/
def predictLoop (intercept beta_hdd beta_cdd : ℚ) : ℚ → List WeekRow →
    List PredRow
  | _, [] => []
  | cum, wk :: rest =>
      let flow := intercept + beta_hdd * wk.hdd + beta_cdd * wk.cdd
      let cum' := cum + flow
      ⟨wk.week_end_date, round1 wk.hdd, round1 wk.cdd, round1 flow,
        round1 cum', wk.days_in_week⟩ ::
        predictLoop intercept beta_hdd beta_cdd cum' rest

/-- GasFlowRegression.predict_from_forecast: aggregate the daily forecast to
gas weeks (an empty aggregation short-circuits to an empty result, which the
loop also produces) and run the accumulation loop seeded with the latest
actual storage level. -/
def predict_from_forecast (intercept beta_hdd beta_cdd : ℚ)
    (daily : List DailyRow) (latest_storage_bcf : ℚ) : List PredRow :=
  predictLoop intercept beta_hdd beta_cdd latest_storage_bcf
    (aggregate_to_gas_weeks daily)

/-- The concrete ten-day input of the aggregation property: ten consecutive
days starting Saturday 1970-01-03, crossing exactly one Thursday-to-Friday
gas week boundary. -/
def tenDayInput : List DailyRow :=
  (List.range 10).map (fun i => ⟨civilToDay 1970 1 3 + i, 1, 1⟩)

/-- Unrounded weekly flow used by predict_from_forecast. -/
def weekFlow (intercept beta_hdd beta_cdd : ℚ) (wk : WeekRow) : ℚ :=
  intercept + beta_hdd * wk.hdd + beta_cdd * wk.cdd

/-- Default weekly row for getD-style indexing in statements. -/
def weekDefault : WeekRow := ⟨0, 0, 0, 0⟩

/-- Default prediction row for getD-style indexing in statements. -/
def predDefault : PredRow := ⟨0, 0, 0, 0, 0, 0⟩

/-- Three consecutive per-hour fetch failures occur somewhere in the outcome
sequence. -/
def hasThreeConsecutiveFailures (o : List HourOutcome) : Prop :=
  ∃ i l', o.drop i = none :: none :: none :: l'

/-- Counterexample input for C6: four forecast hours, alternating success
and failure, so only half the hours are retrieved with no failure triple. -/
def c6CexOutcomes : List HourOutcome :=
  [some ⟨0, 1, 1⟩, none, some ⟨1, 2, 2⟩, none]

/-! ## Ordering instances for the sort relations used by the queries -/
instance regLeTotal :
    IsTotal RegRow (fun a b : RegRow => a.week_end_date ≤ b.week_end_date) :=
  ⟨fun a b => Int.le_total a.week_end_date b.week_end_date⟩

instance regLeTrans :
    IsTrans RegRow (fun a b : RegRow => a.week_end_date ≤ b.week_end_date) :=
  ⟨fun _ _ _ hab hbc => le_trans hab hbc⟩

instance regGeTotal :
    IsTotal RegRow (fun a b : RegRow => b.week_end_date ≤ a.week_end_date) :=
  ⟨fun a b => Int.le_total b.week_end_date a.week_end_date⟩

instance regGeTrans :
    IsTrans RegRow (fun a b : RegRow => b.week_end_date ≤ a.week_end_date) :=
  ⟨fun _ _ _ hab hbc => le_trans hbc hab⟩

instance srowLeTotal :
    IsTotal SRow (fun a b : SRow => a.period ≤ b.period) :=
  ⟨fun a b => Int.le_total a.period b.period⟩

instance srowLeTrans :
    IsTrans SRow (fun a b : SRow => a.period ≤ b.period) :=
  ⟨fun _ _ _ hab hbc => le_trans hab hbc⟩

instance srowGeTotal :
    IsTotal SRow (fun a b : SRow => b.period ≤ a.period) :=
  ⟨fun a b => Int.le_total b.period a.period⟩

instance srowGeTrans :
    IsTrans SRow (fun a b : SRow => b.period ≤ a.period) :=
  ⟨fun _ _ _ hab hbc => le_trans hbc hab⟩

/-- Concrete five-row clean dataset. -/
def fiveCleanRows : List RegRow :=
  (List.range 5).map (fun i => ⟨i, 0, some 0, some 0, some 0⟩)

/-- Concrete ten-row clean dataset. -/
def tenCleanRows : List RegRow :=
  (List.range 10).map (fun i => ⟨i, 0, some 0, some 0, some 0⟩)

/-- Decidable equality for fit_current results. -/
instance exceptFitDecEq : DecidableEq (Except FitError FitResult) := fun x y =>
  match x, y with
  | .error a, .error b =>
      if h : a = b then isTrue (by rw [h]) else isFalse (by simp [h])
  | .ok a, .ok b =>
      if h : a = b then isTrue (by rw [h]) else isFalse (by simp [h])
  | .error _, .ok _ => isFalse (by simp)
  | .ok _, .error _ => isFalse (by simp)

/-- Concrete dataset for the C4 counterexample: 157 rows with ascending
periods 0..156, all clean except the newest row, whose HDD is missing. -/
def c4CexRows : List RegRow :=
  (List.range 157).map (fun i =>
    if i = 156 then ⟨i, 0, some 0, none, some 0⟩
    else ⟨i, 0, some 0, some 0, some 0⟩)

/-- Concrete dataset of exactly 156 clean rows (periods 0..155). -/
def c8CexRows : List RegRow :=
  (List.range 156).map (fun i => ⟨i, 0, some 0, some 0, some 0⟩)

/-- Concrete dataset of 157 clean rows (periods 0..156). -/
def c8WitnessRows : List RegRow :=
  (List.range 157).map (fun i => ⟨i, 0, some 0, some 0, some 0⟩)

/-- Strict period order on storage rows. -/
def sByLt (a b : SRow) : Prop := a.period < b.period

/-- The six insertion orders of the three seed storage observations
2024-01-05 at 100, 2024-01-12 at 95, 2024-01-19 at 110, each inserted as
its own save_storage batch. -/
def seedStorageOrders : List (List (Int × ℚ)) :=
  let p1 := (civilToDay 2024 1 5, (100 : ℚ))
  let p2 := (civilToDay 2024 1 12, (95 : ℚ))
  let p3 := (civilToDay 2024 1 19, (110 : ℚ))
  [[p1, p2, p3], [p1, p3, p2], [p2, p1, p3],
   [p2, p3, p1], [p3, p1, p2], [p3, p2, p1]]

/-- Seed a fresh store by one single-row save_storage call per observation,
in the given order. -/
def seedStores (order : List (Int × ℚ)) : List SRow :=
  order.foldl (fun db row => save_storage db [row]) []

/-! ## Properties and claim theorems -/

/-- Membership is preserved by insertionSort. -/
theorem mem_insertionSort_iff {α : Type} (r : α → α → Prop) [DecidableRel r]
    (l : List α) (x : α) : x ∈ List.insertionSort r l ↔ x ∈ l :=
  (List.perm_insertionSort r l).mem_iff

/-- The last element of a list is a member. -/
theorem mem_of_getLast?_eq {α : Type} {l : List α} {a : α}
    (h : l.getLast? = some a) : a ∈ l := by
  induction l with
  | nil => simp at h
  | cons x t ih =>
    cases t with
    | nil => simp_all
    | cons y s =>
      rw [List.getLast?_cons_cons] at h
      exact List.mem_cons_of_mem x (ih h)

/-- Sums of pointwise sums of naturals split. -/
theorem sum_map_add_nat {α : Type} (l : List α) (f g : α → Nat) :
    (l.map (fun x => f x + g x)).sum = (l.map f).sum + (l.map g).sum := by
  induction l with
  | nil => simp
  | cons a t ih => simp [ih]; omega

/-- A key absent from a list contributes a zero indicator sum. -/
theorem indicator_sum_zero (keys : List Int) (k : Int) (h : k ∉ keys) :
    (keys.map (fun w => if k == w then 1 else 0)).sum = 0 := by
  induction keys with
  | nil => simp
  | cons a t ih =>
    simp only [List.mem_cons, not_or] at h
    simp only [List.map_cons, List.sum_cons, beq_iff_eq, if_neg h.1]
    simpa using ih h.2

/-- A key present once in a duplicate-free list contributes an indicator sum
of one. -/
theorem indicator_sum_one (keys : List Int) (k : Int) (hnd : keys.Nodup)
    (hk : k ∈ keys) : (keys.map (fun w => if k == w then 1 else 0)).sum = 1 := by
  induction keys with
  | nil => simp at hk
  | cons a t ih =>
    rcases List.mem_cons.mp hk with h | h
    · subst h
      have hkt : k ∉ t := (List.nodup_cons.mp hnd).1
      simp only [List.map_cons, List.sum_cons, beq_self_eq_true, if_true]
      simpa using indicator_sum_zero t k hkt
    · have hka : ¬(k == a) = true := by
        simp only [beq_iff_eq]
        rintro rfl
        exact (List.nodup_cons.mp hnd).1 h
      simp only [List.map_cons, List.sum_cons, if_neg hka]
      rw [ih (List.nodup_cons.mp hnd).2 h]

/-- Counting partition: grouping a list by a key function whose values all
lie in a duplicate-free key list accounts for every element exactly once. -/
theorem sum_group_lengths (keys : List Int) (daily : List DailyRow)
    (hnd : keys.Nodup)
    (hcov : ∀ r ∈ daily, gas_week_end r.valid_date ∈ keys) :
    (keys.map (fun w =>
      (daily.filter (fun r => gas_week_end r.valid_date == w)).length)).sum =
      daily.length := by
  induction daily with
  | nil => simp
  | cons a t ih =>
    have step : ∀ w : Int,
        ((a :: t).filter (fun r => gas_week_end r.valid_date == w)).length =
          (if gas_week_end a.valid_date == w then 1 else 0) +
            (t.filter (fun r => gas_week_end r.valid_date == w)).length := by
      intro w
      by_cases h : (gas_week_end a.valid_date == w) = true
      · simp [List.filter_cons, h, Nat.add_comm]
      · simp [List.filter_cons, h]
    calc (keys.map (fun w =>
          ((a :: t).filter (fun r => gas_week_end r.valid_date == w)).length)).sum
        = (keys.map (fun w =>
            (if gas_week_end a.valid_date == w then 1 else 0) +
              (t.filter (fun r => gas_week_end r.valid_date == w)).length)).sum := by
          congr 1
          exact List.map_congr_left (fun w _ => step w)
      _ = (keys.map (fun w => if gas_week_end a.valid_date == w then 1 else 0)).sum +
            (keys.map (fun w =>
              (t.filter (fun r => gas_week_end r.valid_date == w)).length)).sum :=
          sum_map_add_nat keys _ _
      _ = 1 + t.length := by
          rw [indicator_sum_one keys _ hnd (hcov a (List.mem_cons_self a t)),
            ih (fun r hr => hcov r (List.mem_cons_of_mem a hr))]
      _ = (a :: t).length := by simp [Nat.add_comm]

/-- The gas week ending day of any date is the first Thursday on or after it
(Friday starts a new week). -/
theorem gas_week_end_first_thursday (d : Int) :
    pyWeekday (gas_week_end d) = 3 ∧ d ≤ gas_week_end d ∧
      ∀ e : Int, d ≤ e → pyWeekday e = 3 → gas_week_end d ≤ e := by
  simp only [gas_week_end, pyWeekday]
  split_ifs with h
  · refine ⟨by omega, by omega, fun e hde he => ?_⟩
    omega
  · refine ⟨by omega, by omega, fun e hde he => ?_⟩
    omega

/-- Buckets of aggregate_to_gas_weeks sum HDD and CDD over the days assigned
to the bucket and count those days. -/
theorem aggregate_bucket_spec (daily : List DailyRow) :
    ∀ b ∈ aggregate_to_gas_weeks daily,
      b.hdd = ((daily.filter
          (fun r => gas_week_end r.valid_date == b.week_end_date)).map
            (fun r => r.hdd)).sum ∧
      b.cdd = ((daily.filter
          (fun r => gas_week_end r.valid_date == b.week_end_date)).map
            (fun r => r.cdd)).sum ∧
      b.days_in_week = (daily.filter
          (fun r => gas_week_end r.valid_date == b.week_end_date)).length := by
  intro b hb
  unfold aggregate_to_gas_weeks at hb
  obtain ⟨w, _, rfl⟩ := List.mem_map.mp hb
  exact ⟨rfl, rfl, rfl⟩

/-- Bucket day counts of aggregate_to_gas_weeks partition the input days. -/
theorem aggregate_days_partition (daily : List DailyRow) :
    ((aggregate_to_gas_weeks daily).map (fun b => b.days_in_week)).sum =
      daily.length := by
  unfold aggregate_to_gas_weeks
  rw [List.map_map]
  have h1 : (List.insertionSort (fun a b : Int => a ≤ b)
      (daily.map (fun r => gas_week_end r.valid_date))).dedup.Nodup :=
    List.nodup_dedup _
  have h2 : ∀ r ∈ daily, gas_week_end r.valid_date ∈
      (List.insertionSort (fun a b : Int => a ≤ b)
        (daily.map (fun r => gas_week_end r.valid_date))).dedup := by
    intro r hr
    rw [List.mem_dedup, mem_insertionSort_iff]
    exact List.mem_map_of_mem _ hr
  exact sum_group_lengths _ daily h1 h2

/-- C7: aggregateToFiscalWeeks assigns each day to the gas week ending on
the first Thursday on or after it (Friday starting a new week), sums HDD and
CDD per bucket with days_in_week counting the input days falling in the
bucket (partial buckets kept), and on a 10-day input spanning one week
boundary it produces exactly 2 buckets whose day counts sum to 10. -/
theorem C7_aggregate_to_gas_weeks_spec :
    (∀ d : Int, pyWeekday (gas_week_end d) = 3 ∧ d ≤ gas_week_end d ∧
      ∀ e : Int, d ≤ e → pyWeekday e = 3 → gas_week_end d ≤ e) ∧
    (∀ daily : List DailyRow, ∀ b ∈ aggregate_to_gas_weeks daily,
      b.hdd = ((daily.filter
          (fun r => gas_week_end r.valid_date == b.week_end_date)).map
            (fun r => r.hdd)).sum ∧
      b.cdd = ((daily.filter
          (fun r => gas_week_end r.valid_date == b.week_end_date)).map
            (fun r => r.cdd)).sum ∧
      b.days_in_week = (daily.filter
          (fun r => gas_week_end r.valid_date == b.week_end_date)).length) ∧
    (∀ daily : List DailyRow,
      ((aggregate_to_gas_weeks daily).map (fun b => b.days_in_week)).sum =
        daily.length) ∧
    (aggregate_to_gas_weeks tenDayInput).length = 2 ∧
    ((aggregate_to_gas_weeks tenDayInput).map (fun b => b.days_in_week)).sum
      = 10 :=
  ⟨gas_week_end_first_thursday, aggregate_bucket_spec,
    aggregate_days_partition, by decide, by decide⟩

/-- Witness for C7 at a concrete day and input: 1970-01-03 (a Saturday) is
assigned to a Thursday no later than 1970-01-08, and the ten-day input's
bucket day counts sum to 10. -/
theorem C7_witness :
    gas_week_end (civilToDay 1970 1 3) ≤ civilToDay 1970 1 8 ∧
    ((aggregate_to_gas_weeks tenDayInput).map (fun b => b.days_in_week)).sum
      = 10 :=
  ⟨(C7_aggregate_to_gas_weeks_spec.1 (civilToDay 1970 1 3)).2.2
      (civilToDay 1970 1 8) (by decide) (by decide),
    C7_aggregate_to_gas_weeks_spec.2.2.1 tenDayInput⟩

/-- The prediction loop emits one row per weekly bucket. -/
theorem predictLoop_length (i bh bc : ℚ) :
    ∀ (weeks : List WeekRow) (cum : ℚ),
      (predictLoop i bh bc cum weeks).length = weeks.length := by
  intro weeks
  induction weeks with
  | nil => intro cum; rfl
  | cons wk rest ih => intro cum; simp [predictLoop, ih]

/-- Row N of the prediction loop: the rounded flow of week N and the rounded
running storage, whose accumulation is over the unrounded flows. -/
theorem predictLoop_getD (i bh bc : ℚ) :
    ∀ (weeks : List WeekRow) (cum : ℚ) (N : Nat), N < weeks.length →
      (predictLoop i bh bc cum weeks).getD N predDefault =
        ⟨(weeks.getD N weekDefault).week_end_date,
          round1 (weeks.getD N weekDefault).hdd,
          round1 (weeks.getD N weekDefault).cdd,
          round1 (weekFlow i bh bc (weeks.getD N weekDefault)),
          round1 (cum + ((weeks.take (N + 1)).map (weekFlow i bh bc)).sum),
          (weeks.getD N weekDefault).days_in_week⟩ := by
  intro weeks
  induction weeks with
  | nil => intro cum N h; simp at h
  | cons wk rest ih =>
    intro cum N h
    cases N with
    | zero =>
      simp [predictLoop, List.getD_cons_zero, weekFlow]
    | succ n =>
      have hn : n < rest.length := by simpa using h
      simp only [predictLoop, List.getD_cons_succ, List.take_succ_cons,
        List.map_cons, List.sum_cons]
      rw [show i + bh * wk.hdd + bc * wk.cdd = weekFlow i bh bc wk from rfl,
        ih (cum + weekFlow i bh bc wk) n hn]
      congr 2
      rw [add_assoc]

/-- C10: in predict_from_forecast the emitted implied_flow_bcf of week N is
round(intercept + beta_hdd * HDD_N + beta_cdd * CDD_N, 1), and the emitted
forecast_storage_bcf of week N is round(startingStorage + the sum of the
unrounded flows of weeks 0..N, 1); accumulation is over unrounded flows, so
the emitted storage of a week can differ from the previous emitted storage
plus the emitted flow, as the concrete instance shows. -/
theorem C10_predict_from_forecast_spec :
    (∀ (intercept beta_hdd beta_cdd : ℚ) (daily : List DailyRow) (start : ℚ)
      (N : Nat),
      N < (predict_from_forecast intercept beta_hdd beta_cdd daily
        start).length →
      (predict_from_forecast intercept beta_hdd beta_cdd daily start).getD N
          predDefault =
        ⟨((aggregate_to_gas_weeks daily).getD N weekDefault).week_end_date,
          round1 ((aggregate_to_gas_weeks daily).getD N weekDefault).hdd,
          round1 ((aggregate_to_gas_weeks daily).getD N weekDefault).cdd,
          round1 (weekFlow intercept beta_hdd beta_cdd
            ((aggregate_to_gas_weeks daily).getD N weekDefault)),
          round1 (start + (((aggregate_to_gas_weeks daily).take (N + 1)).map
            (weekFlow intercept beta_hdd beta_cdd)).sum),
          ((aggregate_to_gas_weeks daily).getD N weekDefault).days_in_week⟩) ∧
    ((predict_from_forecast (1/25) 0 0 [⟨0, 0, 0⟩, ⟨1, 0, 0⟩] 0).getD 1
        predDefault).forecast_storage_bcf ≠
      ((predict_from_forecast (1/25) 0 0 [⟨0, 0, 0⟩, ⟨1, 0, 0⟩] 0).getD 0
          predDefault).forecast_storage_bcf +
        ((predict_from_forecast (1/25) 0 0 [⟨0, 0, 0⟩, ⟨1, 0, 0⟩] 0).getD 1
            predDefault).implied_flow_bcf := by
  constructor
  · intro intercept beta_hdd beta_cdd daily start N h
    rw [predict_from_forecast] at h ⊢
    rw [predictLoop_length] at h
    exact predictLoop_getD intercept beta_hdd beta_cdd
      (aggregate_to_gas_weeks daily) start N h
  · decide

/-- Witness for C10 at a concrete input: one forecast day, unit
coefficients. -/
theorem C10_witness :
    (predict_from_forecast 1 1 1 [⟨0, 1, 2⟩] 5).getD 0 predDefault =
      ⟨((aggregate_to_gas_weeks [⟨0, 1, 2⟩]).getD 0 weekDefault).week_end_date,
        round1 ((aggregate_to_gas_weeks [⟨0, 1, 2⟩]).getD 0 weekDefault).hdd,
        round1 ((aggregate_to_gas_weeks [⟨0, 1, 2⟩]).getD 0 weekDefault).cdd,
        round1 (weekFlow 1 1 1
          ((aggregate_to_gas_weeks [⟨0, 1, 2⟩]).getD 0 weekDefault)),
        round1 (5 + (((aggregate_to_gas_weeks [⟨0, 1, 2⟩]).take 1).map
          (weekFlow 1 1 1)).sum),
        ((aggregate_to_gas_weeks [⟨0, 1, 2⟩]).getD 0 weekDefault).days_in_week⟩ :=
  C10_predict_from_forecast_spec.1 1 1 1 [⟨0, 1, 2⟩] 5 0 (by decide)

/-- The get_run query returns None exactly when no stored row matches the
requested cycle identity. -/
theorem get_run_eq_none_iff (db : ForecastDB) (model : String) (rd rh : Int) :
    get_run db model rd rh = none ↔
      db.filter (frowMatches model rd rh) = [] := by
  have hperm := List.perm_insertionSort
    (fun a b : FRow => a.valid_date ≤ b.valid_date)
    (db.filter (frowMatches model rd rh))
  simp only [get_run]
  split_ifs with h
  · simp only [true_iff]
    have hnil : List.insertionSort
        (fun a b : FRow => a.valid_date ≤ b.valid_date)
        (db.filter (frowMatches model rd rh)) = [] := List.isEmpty_iff.mp h
    rw [hnil] at hperm
    exact hperm.symm.eq_nil
  · simp only [reduceCtorEq, false_iff]
    intro hnil
    rw [hnil] at hperm h
    exact h (List.isEmpty_iff.mpr hperm.eq_nil)

/-- C9: getCycleByOffset resolves the cycle whose issuance instant is
exactly hoursBack hours before the anchor (with calendar-correct day
rollover) and returns that cycle's stored series, or absent when no rows
for that exact cycle identity exist.  The operation is modelled from the
spec, its implementation not being under src/. -/
theorem C9_get_run_by_offset_spec :
    ∀ (db : ForecastDB) (model : String) (anchorDay anchorHour hoursBack : Int),
    ∃ tD tH : Int, 0 ≤ tH ∧ tH < 24 ∧
      tD * 24 + tH = anchorDay * 24 + anchorHour - hoursBack ∧
      get_run_by_offset db model anchorDay anchorHour hoursBack =
        get_run db model tD tH ∧
      (get_run db model tD tH = none ↔
        db.filter (frowMatches model tD tH) = []) := by
  intro db model aD aH hb
  refine ⟨(aD * 24 + aH - hb) / 24, (aD * 24 + aH - hb) % 24,
    by omega, by omega, by omega, rfl, get_run_eq_none_iff db model _ _⟩

/-- A cons with a successful head has a failure triple exactly when its tail
does. -/
theorem hasTriple_cons_some (r : DailyRow) (rest : List HourOutcome) :
    hasThreeConsecutiveFailures (some r :: rest) ↔
      hasThreeConsecutiveFailures rest := by
  constructor
  · rintro ⟨i, l', h⟩
    cases i with
    | zero => simp at h
    | succ j => exact ⟨j, l', h⟩
  · rintro ⟨i, l', h⟩
    exact ⟨i + 1, l', h⟩

/-- A cons with a failed head has a failure triple exactly when the tail
starts with two failures or itself has a triple. -/
theorem hasTriple_cons_none (rest : List HourOutcome) :
    hasThreeConsecutiveFailures (none :: rest) ↔
      (List.replicate 2 (none : HourOutcome)) <+: rest ∨
        hasThreeConsecutiveFailures rest := by
  constructor
  · rintro ⟨i, l', h⟩
    cases i with
    | zero =>
      left
      simp only [List.drop_zero] at h
      obtain rfl : rest = none :: none :: l' := (List.cons.injEq _ _ _ _).mp h |>.2
      exact ⟨l', rfl⟩
    | succ j => exact Or.inr ⟨j, l', h⟩
  · rintro (⟨t, ht⟩ | ⟨i, l', h⟩)
    · exact ⟨0, t, by simp [← ht]⟩
    · exact ⟨i + 1, l', h⟩

/-- The abort flag of the download loop is set exactly when the remaining
consecutive-failure budget is exhausted by a leading run of failures or a
failure triple occurs anywhere. -/
theorem fetchLoop_aborted_iff :
    ∀ (o : List HourOutcome) (cf : Nat), cf ≤ 2 →
      ((fetchLoop o cf).2 = true ↔
        (List.replicate (3 - cf) (none : HourOutcome)) <+: o ∨
          hasThreeConsecutiveFailures o) := by
  intro o
  induction o with
  | nil =>
    intro cf hcf
    simp only [fetchLoop]
    constructor
    · intro h; simp at h
    · rintro (h | ⟨i, l', h⟩)
      · have h0 := List.prefix_nil.mp h
        rw [List.replicate_eq_nil_iff] at h0
        omega
      · simp at h
  | cons x rest ih =>
    intro cf hcf
    cases x with
    | some r =>
      simp only [fetchLoop]
      rw [ih 0 (by omega)]
      constructor
      · rintro (hp | ht)
        · right
          obtain ⟨t, ht⟩ := hp
          exact ⟨1, t, by rw [List.drop_one, List.tail_cons, ← ht]; rfl⟩
        · exact Or.inr ((hasTriple_cons_some r rest).mpr ht)
      · rintro (hp | ht)
        · exfalso
          have h3 : 3 - cf = (2 - cf) + 1 := by omega
          rw [h3, List.replicate_succ] at hp
          exact Option.noConfusion ((List.cons_prefix_cons.mp hp).1)
        · exact Or.inr ((hasTriple_cons_some r rest).mp ht)
    | none =>
      by_cases h2 : cf = 2
      · subst h2
        simp only [fetchLoop, if_pos (by omega : 3 ≤ 2 + 1)]
        constructor
        · intro _
          left
          exact ⟨rest, by simp [List.replicate]⟩
        · intro _; trivial
      · have hlt : cf < 2 := by omega
        simp only [fetchLoop, if_neg (by omega : ¬ 3 ≤ cf + 1)]
        rw [ih (cf + 1) (by omega)]
        have h2' : 3 - (cf + 1) = 2 - cf := by omega
        have h3 : 3 - cf = (2 - cf) + 1 := by omega
        rw [h2', hasTriple_cons_none, h3, List.replicate_succ,
          List.cons_prefix_cons]
        have habs : (List.replicate 2 (none : HourOutcome)) <+: rest →
            (List.replicate (2 - cf) (none : HourOutcome)) <+: rest := by
          intro hp2
          have hsub : (List.replicate (2 - cf) (none : HourOutcome)) <+:
              (List.replicate 2 (none : HourOutcome)) :=
            ⟨List.replicate cf (none : HourOutcome), by
              rw [← List.replicate_add]
              congr 1
              omega⟩
          exact hsub.trans hp2
        constructor
        · rintro (hp | ht)
          · exact Or.inl ⟨rfl, hp⟩
          · exact Or.inr (Or.inr ht)
        · rintro (⟨_, hp⟩ | hp2 | ht)
          · exact Or.inl hp
          · exact Or.inl (habs hp2)
          · exact Or.inr ht

/-- When the download loop never aborts, it collects exactly the successful
outcomes in order. -/
theorem fetchLoop_rows_of_not_aborted :
    ∀ (o : List HourOutcome) (cf : Nat),
      (fetchLoop o cf).2 = false → (fetchLoop o cf).1 = o.reduceOption := by
  intro o
  induction o with
  | nil => intro cf _; rfl
  | cons x rest ih =>
    intro cf hab
    cases x with
    | some r =>
      simp only [fetchLoop] at hab ⊢
      rw [ih 0 hab]
      simp [List.reduceOption_cons_of_some]
    | none =>
      by_cases h3 : 3 ≤ cf + 1
      · simp only [fetchLoop, if_pos h3] at hab
        exact absurd hab (by decide)
      · simp only [fetchLoop, if_neg h3] at hab ⊢
        rw [ih (cf + 1) hab]
        simp [List.reduceOption_cons_of_none]

/-- Daily aggregation yields an empty frame only on an empty input. -/
theorem dailyAgg_eq_nil_iff (rows : List DailyRow) :
    dailyAgg rows = [] ↔ rows = [] := by
  simp only [dailyAgg, List.map_eq_nil_iff, List.dedup_eq_nil]
  constructor
  · intro h
    have := (List.perm_insertionSort (fun a b : Int => a ≤ b)
      (rows.map (fun r => r.valid_date)))
    rw [h] at this
    have h2 := this.symm.eq_nil
    exact List.map_eq_nil_iff.mp h2
  · intro h
    subst h
    rfl

/-- C6 amended: get_full_forecast discards the whole cycle (an empty result,
so nothing is cached) exactly when nothing at all was retrieved, or when the
loop aborted on three consecutive per-hour failures AND fewer than
int(0.75 * total) hours were retrieved.  A run that never hits three
consecutive failures is returned regardless of completeness, and an aborted
run at or above the threshold is kept partially.  (The claim's
unconditional 75-percent gate does not hold; see the counterexample.) -/
theorem C6_get_full_forecast_spec (o : List HourOutcome) :
    ((fetchLoop o 0).2 = true ↔ hasThreeConsecutiveFailures o) ∧
    ((fetchLoop o 0).2 = false → (fetchLoop o 0).1 = o.reduceOption) ∧
    (get_full_forecast true o = [] ↔
      ((fetchLoop o 0).1 = [] ∨
        ((fetchLoop o 0).2 = true ∧
          (fetchLoop o 0).1.length < o.length * 3 / 4))) ∧
    get_full_forecast false o = [] := by
  refine ⟨?_, fetchLoop_rows_of_not_aborted o 0, ?_, rfl⟩
  · rw [fetchLoop_aborted_iff o 0 (by omega)]
    constructor
    · rintro (⟨t, ht⟩ | h)
      · exact ⟨0, t, by rw [List.drop_zero, ← ht]; rfl⟩
      · exact h
    · exact Or.inr
  · simp only [get_full_forecast, Bool.not_true,
      if_neg (by simp : ¬false = true)]
    by_cases h1 : (fetchLoop o 0).1.isEmpty
    · rw [if_pos h1]
      simp [List.isEmpty_iff.mp h1]
    · rw [if_neg h1]
      have h1' : ¬(fetchLoop o 0).1 = [] := fun h =>
        h1 (List.isEmpty_iff.mpr h)
      by_cases h2 : ((fetchLoop o 0).2 &&
          decide ((fetchLoop o 0).1.length < o.length * 3 / 4)) = true
      · rw [if_pos h2]
        have h2' : (fetchLoop o 0).2 = true ∧
            (fetchLoop o 0).1.length < o.length * 3 / 4 := by simpa using h2
        exact iff_of_true rfl (Or.inr h2')
      · rw [if_neg h2]
        refine iff_of_false
          (fun h => h1' ((dailyAgg_eq_nil_iff _).mp h)) ?_
        rintro (h | ⟨hab, hlen⟩)
        · exact h1' h
        · exact h2 (by simp [hab, hlen])

/-- C6 counterexample: the claim says a non-empty daily series is returned
only when at least 75 percent of the expected hours were retrieved; here
only 2 of 4 hours (50 percent, below the int(4 * 0.75) = 3 threshold) are
retrieved, yet the cycle is returned non-empty (and would be cached). -/
theorem C6_counterexample :
    get_full_forecast true c6CexOutcomes ≠ [] ∧
      (fetchLoop c6CexOutcomes 0).1.length = 2 ∧
      c6CexOutcomes.length * 3 / 4 = 3 := by
  refine ⟨?_, by decide, by decide⟩
  decide

/-- Witness for C6 at a concrete input: a run with an early failure triple
and nothing retrieved is discarded. -/
theorem C6_witness :
    get_full_forecast true [none, none, none, some ⟨0, 1, 1⟩] = [] :=
  (C6_get_full_forecast_spec [none, none, none, some ⟨0, 1, 1⟩]).2.2.1.mpr
    (Or.inl (by decide))

/-- Closed form of the backwards cycle walk: starting at or after the cutoff
with quotient n, the loop emits the boundaries latest - k * step for
k = 0 .. n. -/
theorem cyclesLoop_closed (step cutoff : Int) (hstep : 0 < step) :
    ∀ (n : Nat) (t : Int), cutoff ≤ t → (t - cutoff) / step = n →
      cyclesLoop step cutoff t =
        (List.range (n + 1)).map
          (fun k : Nat => dayHour (t - (k : Int) * step)) := by
  intro n
  induction n with
  | zero =>
    intro t hct hdiv
    rw [cyclesLoop, dif_pos ⟨hstep, hct⟩]
    have h0 : t - cutoff < step := by
      by_contra hge
      push_neg at hge
      have h1 : (1 : Int) ≤ (t - cutoff) / step :=
        Int.le_ediv_iff_mul_le hstep |>.mpr (by omega)
      omega
    rw [cyclesLoop, dif_neg (by omega)]
    rw [show List.range 1 = [0] from rfl]
    simp
  | succ m ih =>
    intro t hct hdiv
    rw [cyclesLoop, dif_pos ⟨hstep, hct⟩]
    have hge : step ≤ t - cutoff := by
      by_contra hlt
      push_neg at hlt
      have h0 : (t - cutoff) / step = 0 :=
        Int.ediv_eq_zero_of_lt (by omega) hlt
      omega
    have hdiv' : (t - step - cutoff) / step = m := by
      have harg : t - step - cutoff = (t - cutoff) + (-1) * step := by ring
      rw [harg, Int.add_mul_ediv_right _ _ (by omega : step ≠ 0)]
      omega
    rw [ih (t - step) (by omega) hdiv']
    conv_rhs => rw [List.range_succ_eq_map]
    rw [List.map_cons, List.map_map]
    congr 1
    · norm_num
    · apply List.map_congr_left
      intro k _
      simp only [Function.comp_apply]
      congr 1
      push_cast
      ring

/-- Closed form of _recent_cycles for the GFS configuration (6-hour cycles,
4-hour delay) with the scheduler's 48-hour lookback: the boundaries are the
floored latest published instant minus multiples of 6 hours, down to the
cutoff. -/
theorem recent_cycles_gfs48 (now : Int) :
    recent_cycles gfsCfg now 48 =
      (List.range (((158400 - (now - 14400) % 21600) / 21600).toNat + 1)).map
        (fun k : Nat =>
          dayHour (now - 14400 - (now - 14400) % 21600 - (k : Int) * 21600)) := by
  have hlatest : (latest_cycle ⟨6, 4⟩ now).1 * 86400 +
      (latest_cycle ⟨6, 4⟩ now).2 * 3600 =
        now - 14400 - (now - 14400) % 21600 := by
    simp only [latest_cycle]
    omega
  have hrc : recent_cycles gfsCfg now 48 =
      cyclesLoop 21600 (now - 172800)
        (now - 14400 - (now - 14400) % 21600) := by
    simp only [recent_cycles, gfsCfg]
    rw [hlatest]
    norm_num
  rw [hrc]
  have harg : now - 14400 - (now - 14400) % 21600 - (now - 172800) =
      158400 - (now - 14400) % 21600 := by omega
  refine cyclesLoop_closed 21600 (now - 172800) (by omega) _ _ (by omega) ?_
  rw [harg]
  omega

/-- One scheduler pass over an empty store attempts every expected recent
cycle. -/
theorem run_once_attempted_empty (model : String) (cfg : ModelCfg)
    (now : Int) (fetch : Int → Int → List DailyRow) :
    (run_once_model [] model cfg now fetch).attempted =
      recent_cycles cfg now 48 := by
  simp only [run_once_model]
  have h : ∀ (cycles : List (Int × Int)) (acc : PassResult),
      (cycles.foldl (fun acc c =>
        if c ∈ get_all_runs ([] : ForecastDB) model then acc
        else
          let daily := fetch c.1 c.2
          if daily.isEmpty then
            { acc with attempted := acc.attempted ++ [c] }
          else
            { attempted := acc.attempted ++ [c]
              db := save_run acc.db model c.1 c.2 daily
              fetched := acc.fetched + 1 }) acc).attempted =
        acc.attempted ++ cycles := by
    intro cycles
    induction cycles with
    | nil => intro acc; simp
    | cons c rest ih =>
      intro acc
      rw [List.foldl_cons,
        if_neg (show ¬c ∈ get_all_runs ([] : ForecastDB) model from
          List.not_mem_nil c)]
      by_cases hd : (fetch c.1 c.2).isEmpty
      · rw [if_pos hd, ih]
        simp
      · rw [if_neg hd, ih]
        simp
  rw [h]
  simp

/-- C5 amended: with cycle interval 6h, publication delay 4h, lookback 48h
and an empty store, one backfill pass computes the expected cycles as the
most recent published boundary (floor of now minus delay to a 6-hour
multiple with calendar-correct rollover) minus k times 6 hours, and attempts
a fetch-and-store for every one of them; but the number of cycles is 8 only
when (now - delay) lies within 2 hours after a 6-hour boundary, and is 7
otherwise - not always 8 as claimed. -/
theorem C5_recent_cycles_spec (now : Int)
    (fetch : Int → Int → List DailyRow) :
    recent_cycles gfsCfg now 48 =
      (List.range (((158400 - (now - 14400) % 21600) / 21600).toNat + 1)).map
        (fun k : Nat =>
          dayHour (now - 14400 - (now - 14400) % 21600 - (k : Int) * 21600)) ∧
    latest_cycle gfsCfg now =
      dayHour (now - 14400 - (now - 14400) % 21600) ∧
    ((recent_cycles gfsCfg now 48).length = 8 ∨
      (recent_cycles gfsCfg now 48).length = 7) ∧
    ((recent_cycles gfsCfg now 48).length = 8 ↔
      (now - 14400) % 21600 ≤ 7200) ∧
    (run_once_model [] "gfs" gfsCfg now fetch).attempted =
      recent_cycles gfsCfg now 48 := by
  have hlen : (recent_cycles gfsCfg now 48).length =
      ((158400 - (now - 14400) % 21600) / 21600).toNat + 1 := by
    rw [recent_cycles_gfs48]
    simp
  refine ⟨recent_cycles_gfs48 now, ?_, ?_, ?_,
    run_once_attempted_empty "gfs" gfsCfg now fetch⟩
  · have h1 : latest_cycle gfsCfg now = ((now - 14400) / 86400,
        (now - 14400) % 86400 / 3600 / 6 * 6) := by
      simp only [latest_cycle, gfsCfg]
      norm_num
    rw [h1]
    simp only [dayHour, Prod.mk.injEq]
    constructor
    · omega
    · omega
  · rw [hlen]
    omega
  · rw [hlen]
    omega

/-- C5 counterexample: at the instant 2024-01-10 15:00:00 UTC the backfill
pass for the GFS configuration computes 7 expected cycles within the
48-hour lookback, not 8. -/
theorem C5_counterexample :
    (recent_cycles gfsCfg (civilToDay 2024 1 10 * 86400 + 15 * 3600)
      48).length = 7 := by
  rw [recent_cycles_gfs48]
  simp only [List.length_map, List.length_range]
  decide

/-- Membership in the inner join underlying get_regression_dataset. -/
theorem mem_regression_joined (stor : List SRow) (dd : List DRow)
    (r : RegRow) :
    r ∈ stor.flatMap (fun s =>
      if s.implied_flow.isSome then
        (dd.filter (fun d => d.week_end_date + 1 == s.period)).map (fun d =>
          (⟨s.period, s.storage_bcf, s.implied_flow, some d.hdd, some d.cdd⟩ :
            RegRow))
      else []) ↔
    ∃ s ∈ stor, s.implied_flow.isSome ∧ ∃ d ∈ dd,
      d.week_end_date + 1 = s.period ∧
      r = ⟨s.period, s.storage_bcf, s.implied_flow, some d.hdd, some d.cdd⟩ := by
  rw [List.mem_flatMap]
  constructor
  · rintro ⟨s, hs, hr⟩
    by_cases hf : s.implied_flow.isSome
    · rw [if_pos hf] at hr
      obtain ⟨d, hd, rfl⟩ := List.mem_map.mp hr
      have hd' := List.mem_filter.mp hd
      exact ⟨s, hs, hf, d, hd'.1, by simpa using hd'.2, rfl⟩
    · rw [if_neg hf] at hr
      simp at hr
  · rintro ⟨s, hs, hf, d, hd, hjoin, rfl⟩
    refine ⟨s, hs, ?_⟩
    rw [if_pos hf]
    exact List.mem_map_of_mem _
      (List.mem_filter.mpr ⟨hd, by simpa using hjoin⟩)

/-- C3: get_regression_dataset returns no row with a null implied flow;
every returned row's period is some stored degree-day week-ending date plus
one day and carries that week's HDD and CDD; and the result is at most
lookback_weeks rows, the most recent matching ones, ordered
oldest-to-newest. -/
theorem C3_get_regression_dataset_spec (stor : List SRow) (dd : List DRow)
    (n : Nat) :
    (∀ r ∈ get_regression_dataset stor dd n, r.implied_flow ≠ none) ∧
    (∀ r ∈ get_regression_dataset stor dd n, ∃ d ∈ dd,
      r.week_end_date = d.week_end_date + 1 ∧
      r.hdd = some d.hdd ∧ r.cdd = some d.cdd) ∧
    (get_regression_dataset stor dd n).length ≤ n ∧
    List.Sorted (fun a b : RegRow => a.week_end_date ≤ b.week_end_date)
      (get_regression_dataset stor dd n) ∧
    (∀ s ∈ stor, s.implied_flow ≠ none → ∀ d ∈ dd,
      d.week_end_date + 1 = s.period →
      (∃ r ∈ get_regression_dataset stor dd n, r.week_end_date = s.period) ∨
      (∀ r ∈ get_regression_dataset stor dd n,
        s.period ≤ r.week_end_date)) := by
  classical
  set joined := stor.flatMap (fun s =>
    if s.implied_flow.isSome then
      (dd.filter (fun d => d.week_end_date + 1 == s.period)).map (fun d =>
        (⟨s.period, s.storage_bcf, s.implied_flow, some d.hdd, some d.cdd⟩ :
          RegRow))
    else []) with hjoined
  have hres : get_regression_dataset stor dd n = sortRegByDate
      ((List.insertionSort
        (fun a b : RegRow => b.week_end_date ≤ a.week_end_date)
        joined).take n) := rfl
  have hmem : ∀ r : RegRow, r ∈ get_regression_dataset stor dd n ↔
      r ∈ (List.insertionSort
        (fun a b : RegRow => b.week_end_date ≤ a.week_end_date)
        joined).take n := by
    intro r
    rw [hres]
    exact mem_insertionSort_iff _ _ r
  have hmem_joined : ∀ r : RegRow, r ∈ get_regression_dataset stor dd n →
      r ∈ joined := by
    intro r hr
    have h1 := (hmem r).mp hr
    have h2 := List.take_subset n _ h1
    exact (mem_insertionSort_iff _ joined r).mp h2
  refine ⟨?_, ?_, ?_, ?_, ?_⟩
  · intro r hr
    obtain ⟨s, _, hf, d, _, _, rfl⟩ :=
      (mem_regression_joined stor dd r).mp (hmem_joined r hr)
    simp only [ne_eq]
    intro hnone
    rw [hnone] at hf
    simp at hf
  · intro r hr
    obtain ⟨s, _, hf, d, hd, hjoin, rfl⟩ :=
      (mem_regression_joined stor dd r).mp (hmem_joined r hr)
    exact ⟨d, hd, by simp [hjoin], rfl, rfl⟩
  · rw [hres]
    have h1 := List.Perm.length_eq (List.perm_insertionSort
      (fun a b : RegRow => a.week_end_date ≤ b.week_end_date)
      ((List.insertionSort
        (fun a b : RegRow => b.week_end_date ≤ a.week_end_date)
        joined).take n))
    rw [sortRegByDate, h1]
    exact List.length_take_le n _
  · rw [hres, sortRegByDate]
    exact List.sorted_insertionSort _ _
  · intro s hs hf d hd hjoin
    have hj : (⟨s.period, s.storage_bcf, s.implied_flow, some d.hdd,
        some d.cdd⟩ : RegRow) ∈ joined :=
      (mem_regression_joined stor dd _).mpr
        ⟨s, hs, Option.ne_none_iff_isSome.mp hf, d, hd, hjoin, rfl⟩
    have hjs : (⟨s.period, s.storage_bcf, s.implied_flow, some d.hdd,
        some d.cdd⟩ : RegRow) ∈ List.insertionSort
          (fun a b : RegRow => b.week_end_date ≤ a.week_end_date) joined :=
      (mem_insertionSort_iff _ joined _).mpr hj
    rw [← List.take_append_drop n (List.insertionSort
      (fun a b : RegRow => b.week_end_date ≤ a.week_end_date) joined)]
      at hjs
    rcases List.mem_append.mp hjs with htake | hdrop
    · left
      exact ⟨_, (hmem _).mpr htake, rfl⟩
    · right
      intro r hr
      have hsorted := List.sorted_insertionSort
        (fun a b : RegRow => b.week_end_date ≤ a.week_end_date) joined
      rw [← List.take_append_drop n (List.insertionSort
        (fun a b : RegRow => b.week_end_date ≤ a.week_end_date) joined),
        List.Sorted, List.pairwise_append] at hsorted
      exact hsorted.2.2 r ((hmem r).mp hr) _ hdrop
  

/-- Witness for C3 at a one-row join: the returned row's implied flow is not
null. -/
theorem C3_witness :
    (⟨10, 95, some 5, some 7, some 3⟩ : RegRow).implied_flow ≠ none :=
  (C3_get_regression_dataset_spec [⟨10, 95, some 5⟩] [⟨9, 7, 3⟩] 5).1
    ⟨10, 95, some 5, some 7, some 3⟩ (by decide)

set_option maxRecDepth 10000 in
/-- C4 amended: fit_current takes the most recent 156 rows of the sorted
dataset and then drops rows with missing HDD/CDD/implied flow among those
(not the other way round, as the counterexample shows); it fails with the
insufficient-data error exactly when fewer than 10 rows remain, any
successful fit reports that remaining count as n_obs, a 5-row window
raises, and exactly 10 clean rows give n_obs = 10. -/
theorem C4_fit_current_spec :
    (∀ (ols : OlsKernel) (df : List RegRow),
      (((pdTail WINDOW (sortRegByDate df)).filter regClean).length < 10 →
        fit_current ols df = .error .insufficientData) ∧
      (10 ≤ ((pdTail WINDOW (sortRegByDate df)).filter regClean).length →
        fit_current ols df ≠ .error .insufficientData) ∧
      (∀ r, fit_current ols df = .ok r →
        r.n_obs =
          ((pdTail WINDOW (sortRegByDate df)).filter regClean).length)) ∧
    fit_current olsZero fiveCleanRows = .error .insufficientData ∧
    (∃ r, fit_current olsZero tenCleanRows = .ok r ∧ r.n_obs = 10) := by
  refine ⟨?_, by decide, ⟨⟨0, 0, 0, 0, 10, 0, 9⟩, by decide, rfl⟩⟩
  intro ols df
  refine ⟨?_, ?_, ?_⟩
  · intro hlt
    simp only [fit_current, if_pos hlt]
  · intro hge
    simp only [fit_current, if_neg (by omega : ¬(((pdTail WINDOW
      (sortRegByDate df)).filter regClean).length < 10))]
    cases hols : fit_ols ols ((pdTail WINDOW (sortRegByDate df)).filter
        regClean) with
    | none => simp
    | some r => simp
  · intro r hr
    by_cases hlt : ((pdTail WINDOW (sortRegByDate df)).filter
        regClean).length < 10
    · simp only [fit_current, if_pos hlt] at hr
      exact Except.noConfusion hr
    · simp only [fit_current, if_neg hlt] at hr
      cases hols : fit_ols ols ((pdTail WINDOW (sortRegByDate df)).filter
          regClean) with
      | none => rw [hols] at hr; simp at hr
      | some r' =>
        rw [hols] at hr
        simp only [Except.ok.injEq] at hr
        subst hr
        obtain ⟨c, _, rfl⟩ := Option.map_eq_some'.mp hols
        rfl

set_option maxRecDepth 10000 in
/-- C4 counterexample: the claim says fit restricts to the most recent 156
observations remaining AFTER dropping rows with missing values, which here
would be the 156 clean rows (periods 0..155, so n_obs 156); the code
instead takes the most recent 156 rows first and then drops, fitting only
155 rows. -/
theorem C4_counterexample :
    fit_current olsZero c4CexRows = .ok ⟨0, 0, 0, 0, 155, 1, 155⟩ ∧
      (pdTail WINDOW ((sortRegByDate c4CexRows).filter regClean)).length
        = 156 := by
  constructor
  · decide
  · decide

/-- Witness for C4: a five-row window raises the insufficient-data error
(obtained through the windowing characterization). -/
theorem C4_witness :
    fit_current olsZero fiveCleanRows = .error .insufficientData :=
  (C4_fit_current_spec.1 olsZero fiveCleanRows).1 (by decide)

set_option maxRecDepth 2000 in
/-- C8 amended: fit_rolling drops unclean rows, then fits the windows
clean[i - 156 .. i) for i = 156 .. len - 1 in order, tagging each
successful fit with its window's last week_end_date and skipping failed
windows without aborting; every window excludes the newest clean row (it is
a sublist of the clean rows without their last element), so the final
window ends at the second-newest remaining row, and exactly 156 clean rows
produce no fits at all. -/
theorem C8_fit_rolling_spec (ols : OlsKernel) (df : List RegRow) :
    let c := (sortRegByDate df).filter regClean
    (∀ p ∈ fit_rolling ols df, ∃ i, WINDOW ≤ i ∧ i < c.length ∧
      fit_ols ols ((c.drop (i - WINDOW)).take WINDOW) = some p.2 ∧
      ((c.drop (i - WINDOW)).take WINDOW).getLast?.map
        (fun x => x.week_end_date) = some p.1 ∧
      p.2.n_obs = WINDOW ∧
      List.Sublist ((c.drop (i - WINDOW)).take WINDOW) c.dropLast) ∧
    (∀ i, WINDOW ≤ i → i < c.length →
      ∀ r, fit_ols ols ((c.drop (i - WINDOW)).take WINDOW) = some r →
        ∃ p ∈ fit_rolling ols df, p.2 = r) ∧
    (fit_rolling ols df).length ≤ c.length - WINDOW ∧
    (c.length = WINDOW → fit_rolling ols df = []) := by
  intro c
  have hrl : fit_rolling ols df =
      (List.range' WINDOW (c.length - WINDOW)).filterMap (fun i =>
        (fit_ols ols ((c.drop (i - WINDOW)).take WINDOW)).map (fun r =>
          ((((c.drop (i - WINDOW)).take WINDOW).getLast?.map
            (fun x => x.week_end_date)).getD 0, r))) := rfl
  clear_value c
  have hwinlen : ∀ i : Nat, WINDOW ≤ i → i < c.length →
      ((c.drop (i - WINDOW)).take WINDOW).length = WINDOW := by
    intro i hiw hi
    rw [List.length_take, List.length_drop]
    apply Nat.min_eq_left
    omega
  refine ⟨?_, ?_, ?_, ?_⟩
  · intro p hp
    rw [hrl] at hp
    obtain ⟨i, hir, hf⟩ := List.mem_filterMap.mp hp
    have hir' := List.mem_range'_1.mp hir
    have hi1 : WINDOW ≤ i := hir'.1
    have hi2 : i < c.length := by omega
    obtain ⟨r, hols, hpr⟩ := Option.map_eq_some'.mp hf
    have hne : ((c.drop (i - WINDOW)).take WINDOW) ≠ [] := by
      intro h0
      have := hwinlen i hi1 hi2
      rw [h0] at this
      exact absurd this.symm (by decide)
    obtain ⟨w, hw⟩ := Option.ne_none_iff_exists'.mp
      (mt List.getLast?_eq_none_iff.mp hne)
    refine ⟨i, hi1, hi2, ?_, ?_, ?_, ?_⟩
    · rw [hols, ← hpr]
    · rw [hw, ← hpr]
      simp [hw]
    · rw [← hpr]
      simp only
      obtain ⟨cf, _, rfl⟩ := Option.map_eq_some'.mp hols
      exact hwinlen i hi1 hi2
    · have hdt : (c.take i).drop (i - WINDOW) =
          (c.drop (i - WINDOW)).take WINDOW := by
        rw [List.drop_take]
        congr 1
        omega
      rw [← hdt, List.dropLast_eq_take]
      exact (List.drop_sublist _ _).trans
        ((List.take_isPrefix_take.mpr (Or.inl (by omega))).sublist)
  · intro i hi1 hi2 r hols
    refine ⟨((((c.drop (i - WINDOW)).take WINDOW).getLast?.map
      (fun x => x.week_end_date)).getD 0, r), ?_, rfl⟩
    rw [hrl]
    refine List.mem_filterMap.mpr ⟨i, ?_, ?_⟩
    · exact List.mem_range'_1.mpr ⟨hi1, by omega⟩
    · rw [hols]
      rfl
  · rw [hrl]
    calc ((List.range' WINDOW (c.length - WINDOW)).filterMap _).length
        ≤ (List.range' WINDOW (c.length - WINDOW)).length :=
          List.length_filterMap_le _ _
      _ = c.length - WINDOW := List.length_range' _ _ _
  · intro hlen
    rw [hrl, hlen]
    simp

set_option maxRecDepth 10000 in
/-- C8 counterexample: on exactly 156 clean rows the claim implies one fit
result per full window position, the final (and only) window ending at the
newest remaining row; the code produces no fit at all, because its loop
iterates i over range(156, len) = range(156, 156), excluding the window
that ends at the newest row. -/
theorem C8_counterexample :
    fit_rolling olsZero c8CexRows = [] ∧
      ((sortRegByDate c8CexRows).filter regClean).length = 156 := by
  constructor
  · decide
  · decide

set_option maxRecDepth 10000 in
/-- Witness for C8: on 157 clean rows the single admissible window position
i = 156 (rows 0..155) yields a fit that fit_rolling indeed emits. -/
theorem C8_witness :
    ∃ p ∈ fit_rolling olsZero c8WitnessRows,
      p.2 = ⟨0, 0, 0, 0, 156, 0, 155⟩ :=
  (C8_fit_rolling_spec olsZero c8WitnessRows).2.1 156 (by decide) (by decide)
    ⟨0, 0, 0, 0, 156, 0, 155⟩ (by decide)

/-- Effect of one INSERT OR REPLACE on the rows of one cycle identity: rows
with the same valid date are removed and the fresh row is appended. -/
theorem keyRows_insertOrReplace (db : ForecastDB) (model : String)
    (rd rh : Int) (a : DailyRow) :
    (insertOrReplace db ⟨model, rd, rh, a.valid_date, a.hdd, a.cdd⟩).filter
        (frowMatches model rd rh) =
      ((db.filter (frowMatches model rd rh)).filter
        (fun x => !(x.valid_date == a.valid_date))) ++
        [⟨model, rd, rh, a.valid_date, a.hdd, a.cdd⟩] := by
  unfold insertOrReplace
  rw [List.filter_append, List.filter_filter, List.filter_filter]
  congr 1
  · apply List.filter_congr
    intro x _
    simp only [frowKeyEq, frowMatches]
    by_cases h1 : x.model == model <;>
      by_cases h2 : x.run_date == rd <;>
        by_cases h3 : x.run_hour == rh <;>
          by_cases h4 : x.valid_date == a.valid_date <;>
            simp [h1, h2, h3, h4]
  · simp [frowMatches]

/-- Effect of save_run on the rows of its cycle identity: previously stored
rows whose valid dates are covered by the series are replaced, the series
is appended, and rows with uncovered valid dates survive. -/
theorem keyRows_save_run (model : String) (rd rh : Int) :
    ∀ (s : List DailyRow) (db : ForecastDB),
      (s.map (fun r => r.valid_date)).Nodup →
      (save_run db model rd rh s).filter (frowMatches model rd rh) =
        ((db.filter (frowMatches model rd rh)).filter
          (fun x =>
            !((s.map (fun r => r.valid_date)).contains x.valid_date))) ++
          s.map (fun row =>
            (⟨model, rd, rh, row.valid_date, row.hdd, row.cdd⟩ : FRow)) := by
  intro s
  induction s with
  | nil =>
    intro db _
    simp only [save_run, List.foldl_nil, List.map_nil, List.append_nil]
    exact (List.filter_eq_self.mpr (fun x _ => rfl)).symm
  | cons a rest ih =>
    intro db hnd
    have hnd' : (rest.map (fun r => r.valid_date)).Nodup :=
      (List.nodup_cons.mp (by simpa using hnd)).2
    have hna : a.valid_date ∉ rest.map (fun r => r.valid_date) :=
      (List.nodup_cons.mp (by simpa using hnd)).1
    have hstep : save_run db model rd rh (a :: rest) =
        save_run (insertOrReplace db
          ⟨model, rd, rh, a.valid_date, a.hdd, a.cdd⟩) model rd rh rest := rfl
    rw [hstep, ih _ hnd', keyRows_insertOrReplace, List.filter_append,
      List.filter_filter]
    have hra : ([(⟨model, rd, rh, a.valid_date, a.hdd, a.cdd⟩ : FRow)].filter
        (fun x =>
          !((rest.map (fun r => r.valid_date)).contains x.valid_date))) =
        [⟨model, rd, rh, a.valid_date, a.hdd, a.cdd⟩] := by
      rw [List.filter_eq_self]
      intro x hx
      rw [List.mem_singleton] at hx
      subst hx
      simpa using hna
    rw [hra]
    have hfilters : (db.filter (frowMatches model rd rh)).filter
        (fun x => !((rest.map (fun r => r.valid_date)).contains
            x.valid_date) && !(x.valid_date == a.valid_date)) =
        (db.filter (frowMatches model rd rh)).filter
          (fun x => !((((a :: rest).map
            (fun r => r.valid_date)).contains x.valid_date))) := by
      apply List.filter_congr
      intro x _
      rw [List.map_cons, List.contains_cons, Bool.not_or]
      exact Bool.and_comm _ _
    rw [hfilters, List.map_cons, List.append_assoc]
    rfl

/-- C1 amended: upsertCycle followed by getCycle with the same identity
returns exactly the series of the last upsert, ordered by validDate
ascending with no duplicate valid dates, PROVIDED the upserted series is
non-empty with strictly ascending valid dates and covers every valid date
already stored for that identity.  Re-saving replaces rows by the
(model, cycleDate, cycleHour, validDate) key with no append duplication,
but rows of an earlier save with valid dates outside the new series
survive, so the unconditional claim fails (see the counterexample). -/
theorem C1_save_get_roundtrip (db : ForecastDB) (model : String)
    (rd rh : Int) (s : List DailyRow)
    (hne : s ≠ [])
    (hasc : s.Pairwise (fun a b => a.valid_date < b.valid_date))
    (hcov : ∀ x ∈ db, frowMatches model rd rh x = true →
      x.valid_date ∈ s.map (fun r => r.valid_date)) :
    get_run (save_run db model rd rh s) model rd rh = some s := by
  have hnd : (s.map (fun r => r.valid_date)).Nodup :=
    (List.pairwise_map).mpr (hasc.imp (fun h => ne_of_lt h))
  have hkey := keyRows_save_run model rd rh s db hnd
  have hfilter0 : (db.filter (frowMatches model rd rh)).filter
      (fun x =>
        !((s.map (fun r => r.valid_date)).contains x.valid_date)) = [] := by
    rw [List.filter_eq_nil_iff]
    intro x hx
    have hx' := List.mem_filter.mp hx
    have hmem := hcov x hx'.1 hx'.2
    simp [hmem]
  simp only [get_run]
  rw [hkey, hfilter0, List.nil_append]
  have hsorted : List.Pairwise
      (fun a b : FRow => a.valid_date ≤ b.valid_date)
      (s.map (fun row =>
        (⟨model, rd, rh, row.valid_date, row.hdd, row.cdd⟩ : FRow))) :=
    (List.pairwise_map).mpr (hasc.imp (fun h => le_of_lt h))
  rw [List.Sorted.insertionSort_eq hsorted]
  rw [if_neg (by
    simp only [List.isEmpty_eq_true, List.map_eq_nil_iff]
    exact hne)]
  congr 1
  rw [List.map_map]
  exact (List.map_congr_left (fun r _ => rfl)).trans (List.map_id' s)

/-- C1 counterexample: after saving a two-day series and then re-saving a
one-day series for the same cycle, getCycle returns two rows (the stale
second day survives), not exactly the last upsert's series. -/
theorem C1_counterexample :
    get_run (save_run (save_run [] "gfs" 100 0 [⟨0, 1, 1⟩, ⟨1, 2, 2⟩])
        "gfs" 100 0 [⟨0, 5, 5⟩]) "gfs" 100 0 =
      some [⟨0, 5, 5⟩, ⟨1, 2, 2⟩] ∧
    some [(⟨0, 5, 5⟩ : DailyRow), ⟨1, 2, 2⟩] ≠ some [(⟨0, 5, 5⟩ : DailyRow)] :=
  ⟨by decide, by decide⟩

/-- Witness for C1 on an empty store: saving a fresh two-day series and
reading it back returns exactly that series. -/
theorem C1_witness :
    get_run (save_run [] "gfs" 100 0 [⟨0, 1, 1⟩, ⟨1, 2, 2⟩]) "gfs" 100 0 =
      some [⟨0, 1, 1⟩, ⟨1, 2, 2⟩] :=
  C1_save_get_roundtrip [] "gfs" 100 0 [⟨0, 1, 1⟩, ⟨1, 2, 2⟩]
    (by decide) (by decide) (by decide)

/-- Distinct periods identify rows. -/
theorem srow_period_inj : ∀ (m : List SRow),
    ((m.map (fun r => r.period)).Nodup) →
    ∀ x ∈ m, ∀ y ∈ m, x.period = y.period → x = y := by
  intro m
  induction m with
  | nil => intro _ x hx; simp at hx
  | cons a t ih =>
    intro hnd x hx y hy hxy
    rw [List.map_cons, List.nodup_cons] at hnd
    rcases List.mem_cons.mp hx with rfl | hx' <;>
      rcases List.mem_cons.mp hy with rfl | hy'
    · rfl
    · exfalso
      apply hnd.1
      rw [hxy]
      exact List.mem_map_of_mem (fun r : SRow => r.period) hy'
    · exfalso
      apply hnd.1
      rw [← hxy]
      exact List.mem_map_of_mem (fun r : SRow => r.period) hx'
    · exact ih hnd.2 x hx' y hy' hxy

/-- The head of the descending sort is a maximum element. -/
theorem sortSDesc_head_max (m : List SRow) (x : SRow)
    (hx : (sortSByPeriodDesc m).head? = some x) :
    x ∈ m ∧ ∀ y ∈ m, y.period ≤ x.period := by
  have hs := List.sorted_insertionSort
    (fun a b : SRow => b.period ≤ a.period) m
  have hperm := List.perm_insertionSort
    (fun a b : SRow => b.period ≤ a.period) m
  rw [sortSByPeriodDesc] at hx
  cases hsort : List.insertionSort
      (fun a b : SRow => b.period ≤ a.period) m with
  | nil => rw [hsort] at hx; simp at hx
  | cons h t =>
    rw [hsort] at hx hperm hs
    simp only [List.head?_cons, Option.some.injEq] at hx
    subst hx
    rw [List.Sorted, List.pairwise_cons] at hs
    constructor
    · exact hperm.mem_iff.mp (List.mem_cons_self _ t)
    · intro y hy
      rcases List.mem_cons.mp (hperm.mem_iff.mpr hy) with rfl | hyt
      · exact le_refl _
      · exact hs.1 y hyt

/-- The last element of a strictly ascending list is a maximum element. -/
theorem getLast_max_of_sorted : ∀ (l : List SRow),
    List.Pairwise sByLt l →
    ∀ z, l.getLast? = some z → ∀ y ∈ l, y.period ≤ z.period := by
  intro l
  induction l with
  | nil => intro _ z hz; simp at hz
  | cons a t ih =>
    intro hs z hz y hy
    rw [List.pairwise_cons] at hs
    cases t with
    | nil =>
      simp only [List.getLast?_singleton, Option.some.injEq] at hz
      subst hz
      have hy2 : y = a := List.mem_singleton.mp hy
      subst hy2
      exact le_refl _
    | cons c t' =>
      rw [List.getLast?_cons_cons] at hz
      have hzmem : z ∈ c :: t' := mem_of_getLast?_eq hz
      rcases List.mem_cons.mp hy with rfl | hyt
      · exact le_of_lt (hs.1 z hzmem)
      · exact ih hs.2 z hz y hyt

/-- The head of the descending sort of a strictly ascending list is its
last element. -/
theorem sortSDesc_head_eq_getLast (pre : List SRow)
    (hs : List.Pairwise sByLt pre) :
    (sortSByPeriodDesc pre).head? = pre.getLast? := by
  by_cases hpre : pre = []
  · subst hpre; rfl
  · have hnd : ((pre.map (fun r => r.period)).Nodup) :=
      (List.pairwise_map).mpr (hs.imp (fun h => ne_of_lt h))
    have hlen : (sortSByPeriodDesc pre).length = pre.length :=
      (List.perm_insertionSort _ pre).length_eq
    obtain ⟨w, hw⟩ : ∃ w, (sortSByPeriodDesc pre).head? = some w := by
      cases hhead : (sortSByPeriodDesc pre).head? with
      | none =>
        rw [List.head?_eq_none_iff] at hhead
        rw [hhead] at hlen
        simp only [List.length_nil] at hlen
        exact absurd (List.eq_nil_of_length_eq_zero hlen.symm) hpre
      | some w => exact ⟨w, rfl⟩
    obtain ⟨z, hz⟩ : ∃ z, pre.getLast? = some z := by
      cases hlast : pre.getLast? with
      | none => exact absurd (List.getLast?_eq_none_iff.mp hlast) hpre
      | some z => exact ⟨z, rfl⟩
    have hwspec := sortSDesc_head_max pre w hw
    have hzmem : z ∈ pre := mem_of_getLast?_eq hz
    have hzmax := getLast_max_of_sorted pre hs z hz
    have hperiods : w.period = z.period :=
      le_antisymm (hzmax w hwspec.1) (hwspec.2 z hzmem)
    rw [hw, hz, srow_period_inj pre hnd w hwspec.1 z hzmem hperiods]

/-- The prior-week lookup at a row of a strictly ascending list, split as
prefix-and-tail: it finds exactly the last row of the prefix. -/
theorem priorStorage_of_append (pre : List SRow) (b : SRow)
    (rest : List SRow) (hs : List.Pairwise sByLt (pre ++ b :: rest)) :
    priorStorage (pre ++ b :: rest) b.period =
      pre.getLast?.map (fun x => x.storage_bcf) := by
  have hsplit := List.pairwise_append.mp hs
  have hfpre : pre.filter (fun x => decide (x.period < b.period)) = pre := by
    rw [List.filter_eq_self]
    intro x hx
    simpa using hsplit.2.2 x hx b (List.mem_cons_self b rest)
  have hfrest : (b :: rest).filter
      (fun x => decide (x.period < b.period)) = [] := by
    rw [List.filter_eq_nil_iff]
    intro x hx
    rcases List.mem_cons.mp hx with rfl | hx'
    · simp
    · have hb := (List.pairwise_cons.mp hsplit.2.1).1 x hx'
      simp only [decide_eq_true_eq, not_lt]
      exact le_of_lt hb
  rw [priorStorage, List.filter_append, hfpre, hfrest, List.append_nil,
    sortSDesc_head_eq_getLast pre hsplit.1]

/-- Each row written by the recomputation walk carries the difference to
the storage level of its strict chronological predecessor (the last row of
the already-walked prefix). -/
theorem walkFlows_spec : ∀ (l pre : List SRow),
    List.Pairwise sByLt (pre ++ l) →
    ∀ r ∈ walkFlows (pre.getLast?.map (fun x => x.storage_bcf)) l,
      r.implied_flow = (priorStorage (pre ++ l) r.period).map
        (fun pv => r.storage_bcf - pv) := by
  intro l
  induction l with
  | nil =>
    intro pre _ r hr
    simp [walkFlows] at hr
  | cons b rest ih =>
    intro pre hs r hr
    rw [walkFlows] at hr
    rcases List.mem_cons.mp hr with rfl | hr'
    · change ((pre.getLast?.map (fun x => x.storage_bcf)).map
          (fun pv => b.storage_bcf - pv)) =
        (priorStorage (pre ++ b :: rest) b.period).map
          (fun pv => b.storage_bcf - pv)
      rw [priorStorage_of_append pre b rest hs]
    · have hs' : List.Pairwise sByLt ((pre ++ [b]) ++ rest) := by
        rw [List.append_assoc]
        simpa using hs
      have hlast : (pre ++ [b]).getLast? = some b := List.getLast?_concat pre
      have hmem : r ∈ walkFlows ((pre ++ [b]).getLast?.map
          (fun x => x.storage_bcf)) rest := by
        rw [hlast]
        exact hr'
      have hres := ih (pre ++ [b]) hs' r hmem
      rw [List.append_assoc] at hres
      simpa using hres

/-- The prior-week lookup depends only on the set of stored rows. -/
theorem priorStorage_congr_perm (a b : List SRow) (hperm : a.Perm b)
    (hnd : (b.map (fun r => r.period)).Nodup) (p : Int) :
    priorStorage a p = priorStorage b p := by
  have hpf : (a.filter (fun x => decide (x.period < p))).Perm
      (b.filter (fun x => decide (x.period < p))) := hperm.filter _
  have hndf : ((b.filter (fun x => decide (x.period < p))).map
      (fun r => r.period)).Nodup :=
    hnd.sublist ((List.filter_sublist b).map (fun r => r.period))
  rw [priorStorage, priorStorage]
  cases hh1 : (sortSByPeriodDesc
      (a.filter (fun x => decide (x.period < p)))).head? with
  | none =>
    rw [List.head?_eq_none_iff] at hh1
    have h1 : a.filter (fun x => decide (x.period < p)) = [] := by
      have hlen : (sortSByPeriodDesc
          (a.filter (fun x => decide (x.period < p)))).length =
          (a.filter (fun x => decide (x.period < p))).length :=
        (List.perm_insertionSort _ _).length_eq
      rw [hh1] at hlen
      exact List.eq_nil_of_length_eq_zero hlen.symm
    have h2 : b.filter (fun x => decide (x.period < p)) = [] := by
      rw [h1] at hpf
      exact hpf.symm.eq_nil
    rw [h2]
    rfl
  | some x1 =>
    have hx1 := sortSDesc_head_max _ x1 hh1
    cases hh2 : (sortSByPeriodDesc
        (b.filter (fun x => decide (x.period < p)))).head? with
    | none =>
      rw [List.head?_eq_none_iff] at hh2
      have h2 : b.filter (fun x => decide (x.period < p)) = [] := by
        have hlen : (sortSByPeriodDesc
            (b.filter (fun x => decide (x.period < p)))).length =
            (b.filter (fun x => decide (x.period < p))).length :=
          (List.perm_insertionSort _ _).length_eq
        rw [hh2] at hlen
        exact List.eq_nil_of_length_eq_zero hlen.symm
      rw [h2] at hpf
      exact absurd (hpf.eq_nil ▸ hx1.1) (List.not_mem_nil x1)
    | some x2 =>
      have hx2 := sortSDesc_head_max _ x2 hh2
      have hx1b : x1 ∈ b.filter (fun x => decide (x.period < p)) :=
        hpf.mem_iff.mp hx1.1
      have hx2a : x2 ∈ a.filter (fun x => decide (x.period < p)) :=
        hpf.mem_iff.mpr hx2.1
      have hperiods : x1.period = x2.period :=
        le_antisymm (hx2.2 x1 hx1b) (hx1.2 x2 hx2a)
      rw [srow_period_inj _ hndf x1 hx1b x2 hx2.1 hperiods]

/-- C2: after recompute_implied_flows, every stored period's implied flow
equals its storage level minus the storage level of its strict
chronological predecessor in the store (the source's own prior-row lookup),
and is null for the earliest period; seeding 2024-01-05 at 100, 2024-01-12
at 95, 2024-01-19 at 110 yields implied flows null, -5, +15 in every one of
the six insertion orders. -/
theorem C2_recompute_implied_flows_spec :
    (∀ (db : List SRow), (db.map (fun r => r.period)).Nodup →
      ∀ r ∈ recompute_implied_flows db,
        r.implied_flow = (priorStorage db r.period).map
          (fun pv => r.storage_bcf - pv)) ∧
    (∀ (db : List SRow), (db.map (fun r => r.period)).Nodup →
      ∀ r ∈ recompute_implied_flows db,
        (∀ x ∈ db, ¬x.period < r.period) → r.implied_flow = none) ∧
    (∀ o ∈ seedStorageOrders,
      (sortSByPeriod (recompute_implied_flows (seedStores o))).map
          (fun r => (r.period, r.implied_flow)) =
        [(civilToDay 2024 1 5, none), (civilToDay 2024 1 12, some (-5)),
          (civilToDay 2024 1 19, some 15)]) := by
  have hmain : ∀ (db : List SRow), (db.map (fun r => r.period)).Nodup →
      ∀ r ∈ recompute_implied_flows db,
        r.implied_flow = (priorStorage db r.period).map
          (fun pv => r.storage_bcf - pv) := by
    intro db hnd r hr
    have hperm : (sortSByPeriod db).Perm db :=
      List.perm_insertionSort _ db
    have hndl : ((sortSByPeriod db).map (fun r => r.period)).Nodup :=
      ((hperm.map (fun r => r.period)).nodup_iff).mpr hnd
    have hsorted : List.Pairwise
        (fun a b : SRow => a.period ≤ b.period) (sortSByPeriod db) :=
      List.sorted_insertionSort _ db
    have hstrict : List.Pairwise sByLt (sortSByPeriod db) := by
      have hne : List.Pairwise
          (fun a b : SRow => a.period ≠ b.period) (sortSByPeriod db) :=
        (List.pairwise_map).mp hndl
      exact (hsorted.and hne).imp
        (fun h => lt_of_le_of_ne h.1 h.2)
    have hwalk := walkFlows_spec (sortSByPeriod db) [] (by simpa using hstrict)
      r (by simpa using hr)
    rw [List.nil_append] at hwalk
    rw [hwalk]
    rw [priorStorage_congr_perm (sortSByPeriod db) db hperm hnd r.period]
  refine ⟨hmain, ?_, by decide⟩
  intro db hnd r hr hearliest
  rw [hmain db hnd r hr]
  have hfilter : db.filter (fun x => decide (x.period < r.period)) = [] := by
    rw [List.filter_eq_nil_iff]
    intro x hx
    simpa using hearliest x hx
  rw [priorStorage, hfilter]
  rfl

/-- Witness for C2: in the recomputed three-row store, the 2024-01-12 row's
flow equals its storage minus its predecessor's storage. -/
theorem C2_witness :
    (⟨civilToDay 2024 1 12, 95, some (-5)⟩ : SRow).implied_flow =
      (priorStorage
        [⟨civilToDay 2024 1 5, 100, none⟩, ⟨civilToDay 2024 1 12, 95, none⟩,
          ⟨civilToDay 2024 1 19, 110, none⟩]
        (⟨civilToDay 2024 1 12, 95, some (-5)⟩ : SRow).period).map
        (fun pv =>
          (⟨civilToDay 2024 1 12, 95, some (-5)⟩ : SRow).storage_bcf - pv) :=
  C2_recompute_implied_flows_spec.1
    [⟨civilToDay 2024 1 5, 100, none⟩, ⟨civilToDay 2024 1 12, 95, none⟩,
      ⟨civilToDay 2024 1 19, 110, none⟩]
    (by decide) ⟨civilToDay 2024 1 12, 95, some (-5)⟩ (by decide)
